import Mathlib

/-!
Verification development for the India-Inflation-Atlas statistical dashboard.

The repository consists of offline data-cleaning scripts
(`datacleaning/check.py`, `cleanup.py`, `cleanup2.py`, `errorAnalysis.py`,
`replaceP.py`) and a dashboard application (`model.py`) whose
`update_visualization` callback builds charts and forecasts.

Shallow embedding conventions:
  * a table column of possibly-missing numeric values is a `List (Option ℚ)`
    (`none` models a pandas `NaN`);
  * strings manipulated character-wise (item codes) are `List Char`;
  * machine floats are idealised as `ℚ`;
  * a script step that raises an exception is a function into `Except`.
-/

namespace Atlas

/-! ## Cleaner / Deduplicator (`datacleaning/errorAnalysis.py`, `replaceP.py`) -/

/-- One Price Record row of the item dataset (columns used by the cleaning
scripts and the dashboard). -/
structure PriceRecord where
  item_code : String
  year : Int
  month : Nat
  combined_index : ℚ
deriving DecidableEq

/-- Worker for `dropDuplicates`: scans the list left to right, keeping an
element only if it has not been seen in an earlier position. -/
def dedupFirstAux {α : Type} [DecidableEq α] (seen : List α) : List α → List α
  | [] => []
  | a :: t => if a ∈ seen then dedupFirstAux seen t else a :: dedupFirstAux (a :: seen) t

/-- Embedding of `df.drop_duplicates(inplace=True)`
(`errorAnalysis.py` line 8): remove exact duplicate rows, keep the first
occurrence, preserve original order. -/
def dropDuplicates {α : Type} [DecidableEq α] (l : List α) : List α :=
  dedupFirstAux [] l

theorem dedupFirstAux_not_mem_seen {α : Type} [DecidableEq α] :
    ∀ (l : List α) (seen : List α), ∀ x ∈ dedupFirstAux seen l, x ∉ seen
  | [], _, x, hx => by simp [dedupFirstAux] at hx
  | a :: t, seen, x, hx => by
    by_cases ha : a ∈ seen
    · simp only [dedupFirstAux, if_pos ha] at hx
      exact dedupFirstAux_not_mem_seen t seen x hx
    · simp only [dedupFirstAux, if_neg ha, List.mem_cons] at hx
      rcases hx with rfl | hx
      · exact ha
      · have := dedupFirstAux_not_mem_seen t (a :: seen) x hx
        exact fun hmem => this (List.mem_cons_of_mem a hmem)

theorem dedupFirstAux_nodup {α : Type} [DecidableEq α] :
    ∀ (l : List α) (seen : List α), (dedupFirstAux seen l).Nodup
  | [], _ => by simp [dedupFirstAux]
  | a :: t, seen => by
    by_cases ha : a ∈ seen
    · simpa [dedupFirstAux, if_pos ha] using dedupFirstAux_nodup t seen
    · simp only [dedupFirstAux, if_neg ha]
      refine List.nodup_cons.mpr ⟨?_, dedupFirstAux_nodup t (a :: seen)⟩
      intro hmem
      exact dedupFirstAux_not_mem_seen t (a :: seen) a hmem (List.mem_cons_self a seen)

theorem dedupFirstAux_eq_self {α : Type} [DecidableEq α] :
    ∀ (l : List α) (seen : List α), l.Nodup → (∀ x ∈ l, x ∉ seen) →
      dedupFirstAux seen l = l
  | [], _, _, _ => rfl
  | a :: t, seen, hnd, hdis => by
    have ha : a ∉ seen := hdis a (List.mem_cons_self a t)
    simp only [dedupFirstAux, if_neg ha]
    have hnd' := List.nodup_cons.mp hnd
    refine congrArg (a :: ·) (dedupFirstAux_eq_self t (a :: seen) hnd'.2 ?_)
    intro x hx
    rw [List.mem_cons]
    rintro (rfl | hxs)
    · exact hnd'.1 hx
    · exact hdis x (List.mem_cons_of_mem a hx) hxs

/-! ## Missing-value imputation (`errorAnalysis.py` lines 10-12) -/

/-- Worker for `ffill`: `carry` is the most recent non-missing value seen in a
strictly earlier position (`none` while no such value exists). -/
def ffillAux (carry : Option ℚ) : List (Option ℚ) → List (Option ℚ)
  | [] => []
  | none :: t => carry :: ffillAux carry t
  | some v :: t => some v :: ffillAux (some v) t

/-- Embedding of `df['combined_index'].fillna(method='ffill', inplace=True)`:
each missing entry is replaced by the nearest non-missing value in a strictly
earlier row; a leading run of missing entries stays missing. -/
def ffill (l : List (Option ℚ)) : List (Option ℚ) :=
  ffillAux none l

/-- Values of a column that are present (pandas drops `NaN` when averaging). -/
def presentVals (l : List (Option ℚ)) : List ℚ :=
  l.filterMap id

/-- Embedding of `df['combined_index'].mean()`: the mean over the non-missing
entries, itself missing when the column holds no value at all. -/
def colMean (l : List (Option ℚ)) : Option ℚ :=
  if (presentVals l).length = 0 then none
  else some ((presentVals l).sum / (presentVals l).length)

/-- Embedding of `fillna(m)` with a scalar argument `m`: each missing entry is
replaced by `m`; note that `fillna(NaN)` leaves the entry missing, which the
`Option`-valued fill constant models exactly. -/
def fillConst (m : Option ℚ) (l : List (Option ℚ)) : List (Option ℚ) :=
  l.map fun x => match x with | some v => some v | none => m

/-- The Cleaner's imputation step (`errorAnalysis.py` lines 10-12): forward
fill, then fill whatever is still missing with the mean of the column as it
stands after the forward fill. -/
def imputeCombinedIndex (l : List (Option ℚ)) : List (Option ℚ) :=
  fillConst (colMean (ffill l)) (ffill l)

/-- Worker for `lastSome`, threading the latest non-missing value. -/
def lastSomeAux (c : Option ℚ) (l : List (Option ℚ)) : Option ℚ :=
  l.foldl (fun acc x => match x with | some v => some v | none => acc) c

/-- Nearest non-missing value looking backwards from the end of `l`. -/
def lastSome (l : List (Option ℚ)) : Option ℚ :=
  lastSomeAux none l

theorem lastSomeAux_cons (c : Option ℚ) (x : Option ℚ) (t : List (Option ℚ)) :
    lastSomeAux c (x :: t) =
      lastSomeAux (match x with | some v => some v | none => c) t := by
  cases x <;> rfl

theorem ffillAux_getElem? :
    ∀ (l : List (Option ℚ)) (c : Option ℚ) (i : Nat),
      (ffillAux c l)[i]? =
        (l[i]?).map fun x =>
          match x with
          | some v => some v
          | none => lastSomeAux c (l.take i)
  | [], c, i => by simp [ffillAux]
  | x :: t, c, 0 => by cases x <;> simp [ffillAux, lastSomeAux]
  | x :: t, c, i + 1 => by
    cases x with
    | none =>
      simpa [ffillAux, lastSomeAux_cons] using ffillAux_getElem? t c i
    | some v =>
      simpa [ffillAux, lastSomeAux_cons] using ffillAux_getElem? t (some v) i

theorem ffillAux_exists_isSome (l : List (Option ℚ)) (c : Option ℚ)
    (hp : ∃ x ∈ l, x.isSome) : ∃ y ∈ ffillAux c l, y.isSome := by
  induction l generalizing c with
  | nil => simp at hp
  | cons x t ih =>
    cases x with
    | some v => exact ⟨some v, by simp [ffillAux], rfl⟩
    | none =>
      obtain ⟨y, hy, hsome⟩ := hp
      rcases List.mem_cons.mp hy with rfl | hyt
      · simp at hsome
      · obtain ⟨z, hz, hzs⟩ := ih (c := c) ⟨y, hyt, hsome⟩
        exact ⟨z, List.mem_cons_of_mem _ hz, hzs⟩

theorem colMean_isSome_of_exists (l : List (Option ℚ))
    (hp : ∃ x ∈ l, x.isSome) : (colMean l).isSome := by
  obtain ⟨y, hy, hsome⟩ := hp
  obtain ⟨v, rfl⟩ := Option.isSome_iff_exists.mp hsome
  have hv : v ∈ presentVals l := List.mem_filterMap.mpr ⟨some v, hy, rfl⟩
  have hne : (presentVals l).length ≠ 0 :=
    Nat.pos_iff_ne_zero.mp (List.length_pos.mpr (List.ne_nil_of_mem hv))
  simp [colMean, hne]

/-- C2 (counterexample): the claim "after the imputation step the
combined_index column contains no missing values" fails for a table whose
column is entirely missing: forward-fill leaves it untouched and the column
mean of an all-missing column is itself missing, so `fillna(mean)` fills
nothing. -/
theorem imputation_leaves_missing_cx :
    ¬ (∀ y ∈ imputeCombinedIndex [(none : Option ℚ)], y.isSome) := by
  decide

/-- C2 (amended): for every input column holding at least one non-missing
value, after the Cleaner's imputation step (forward-fill then mean-fill) the
combined_index column contains no missing values, and every imputed entry
either equals the nearest non-missing value of a strictly earlier row
(forward-fill) or equals the column mean, the latter exactly for rows with no
earlier non-missing value. -/
theorem imputation_fills_all (l : List (Option ℚ)) (hp : ∃ x ∈ l, x.isSome) :
    (∀ y ∈ imputeCombinedIndex l, y.isSome) ∧
      ∀ i : Nat, l[i]? = some none →
        (imputeCombinedIndex l)[i]? =
          some (match lastSome (l.take i) with
                | some w => some w
                | none => colMean (ffill l)) := by
  have hmean : (colMean (ffill l)).isSome :=
    colMean_isSome_of_exists _ (ffillAux_exists_isSome l none hp)
  constructor
  · intro y hy
    obtain ⟨x, _, rfl⟩ := List.mem_map.mp hy
    cases x with
    | some v => rfl
    | none => exact hmean
  · intro i hi
    have hmap : (imputeCombinedIndex l)[i]? =
        ((ffill l)[i]?).map fun x =>
          match x with | some v => some v | none => colMean (ffill l) :=
      List.getElem?_map ..
    have hff : (ffill l)[i]? =
        (l[i]?).map fun x =>
          match x with
          | some v => some v
          | none => lastSomeAux none (l.take i) :=
      ffillAux_getElem? l none i
    rw [hmap, hff, hi, Option.map_some', Option.map_some']
    rw [lastSome]

/-- C2 (witness): the amended imputation theorem applied to the concrete
column `[missing, 2, missing]`: the trailing missing entry is forward-filled
with the value `2` of the strictly earlier row. -/
theorem imputation_fills_all_witness :
    (imputeCombinedIndex [none, some 2, none])[2]? = some (some 2) := by
  have h := (imputation_fills_all [none, some 2, none]
    ⟨some 2, by decide, rfl⟩).2 2 rfl
  rw [h]
  decide

/-! ## Item-code suffix stripping (`replaceP.py`) -/

/-- Embedding of
`df["item_code"].str.replace(r"\.P$", "", regex=True)`
(`replaceP.py` line 7): the anchored pattern matches at most once, at the very
end of the string, so one trailing `.P` is removed when present and the string
is otherwise unchanged.  Strings are modelled as lists of characters. -/
def stripP (s : List Char) : List Char :=
  if ['.', 'P'] <:+ s then s.take (s.length - 2) else s

theorem stripP_of_not_suffix {s : List Char} (h : ¬ ['.', 'P'] <:+ s) :
    stripP s = s := by
  simp [stripP, h]

theorem stripP_append (u : List Char) :
    stripP (u ++ ['.', 'P']) = u := by
  have hsuf : ['.', 'P'] <:+ u ++ ['.', 'P'] := ⟨u, rfl⟩
  have hlen : (u ++ ['.', 'P']).length - 2 = u.length := by
    simp
  rw [stripP, if_pos hsuf, hlen, List.take_left]

/-- C3 (counterexample): the claim "stripping twice yields the same result as
stripping once, for every item_code string" fails on the concrete string
`"1.P.P"`: one strip gives `"1.P"`, a second strip gives `"1"`. -/
theorem stripP_not_idempotent_on_PP :
    stripP (stripP ['1', '.', 'P', '.', 'P']) ≠ stripP ['1', '.', 'P', '.', 'P'] := by
  decide

/-- C3 (amended): the suffix-stripping operation is idempotent on every
item_code that does not end with the four characters `.P.P`; equivalently,
stripping twice equals stripping once unless the code carries a doubled
`.P.P` tail (which a single anchored replacement shortens by one `.P`
each time). -/
theorem stripP_idempotent (s : List Char) (h : ¬ ['.', 'P', '.', 'P'] <:+ s) :
    stripP (stripP s) = stripP s := by
  by_cases hs : ['.', 'P'] <:+ s
  · obtain ⟨u, rfl⟩ := hs
    rw [stripP_append]
    have hu : ¬ ['.', 'P'] <:+ u := by
      rintro ⟨v, rfl⟩
      exact h ⟨v, by simp⟩
    exact stripP_of_not_suffix hu
  · rw [stripP_of_not_suffix hs, stripP_of_not_suffix hs]

/-- C3 (witness): the amended idempotence theorem applied to the concrete
item code `"2.P"`, whose single strip is already stable. -/
theorem stripP_idempotent_witness :
    stripP (stripP ['2', '.', 'P']) = stripP ['2', '.', 'P'] :=
  stripP_idempotent ['2', '.', 'P'] (by decide)

/-- C8: de-duplication (keep first occurrence, preserve order) is idempotent
on every table of Price Records: applying it twice yields the same rows, and
in particular the same row count, as applying it once. -/
theorem drop_duplicates_idempotent (l : List PriceRecord) :
    dropDuplicates (dropDuplicates l) = dropDuplicates l ∧
      (dropDuplicates (dropDuplicates l)).length = (dropDuplicates l).length := by
  have heq : dropDuplicates (dropDuplicates l) = dropDuplicates l := by
    refine dedupFirstAux_eq_self (dedupFirstAux [] l) [] (dedupFirstAux_nodup l []) ?_
    intro x _ hx
    simp at hx
  exact ⟨heq, congrArg List.length heq⟩

/-! ## Schema Normalizer month conversion (`datacleaning/cleanup.py` lines 18-21) -/

/-- Error raised when a `month` value cannot be coerced
(`cleanup.py` raises `ValueError`; the spec's taxonomy names it
`SchemaError`). -/
inductive SchemaError where
  | invalidMonth : SchemaError
deriving DecidableEq

/-- Leading and trailing whitespace removal, the embedding of Python
`str.strip()` on a string modelled as a list of characters. -/
def trimChars (cs : List Char) : List Char :=
  ((cs.dropWhile Char.isWhitespace).reverse.dropWhile Char.isWhitespace).reverse

/-- The admissible numeric month strings `[str(i) for i in range(1, 13)]`
from `cleanup.py` line 19. -/
def monthStrings : List (List Char) :=
  [['1'], ['2'], ['3'], ['4'], ['5'], ['6'], ['7'], ['8'], ['9'],
   ['1', '0'], ['1', '1'], ['1', '2']]

/-- Decimal parsing of a digit string, the embedding of `astype(int)` on a
column that has already passed the `isin` membership check. -/
def parseNatChars (cs : List Char) : Nat :=
  cs.foldl (fun a c => a * 10 + (c.toNat - 48)) 0

/-- Embedding of `cleanup.py` lines 18-21: strip every month value, refuse
the whole table with a `SchemaError` unless every stripped value is one of
the literal strings `"1"`..`"12"`, and otherwise coerce each value to an
integer. -/
def normalizeMonths (ms : List (List Char)) : Except SchemaError (List Nat) :=
  let t := ms.map trimChars
  if t.all (fun s => decide (s ∈ monthStrings)) then .ok (t.map parseNatChars)
  else .error .invalidMonth

theorem parseNatChars_month_range (s : List Char) (hs : s ∈ monthStrings) :
    1 ≤ parseNatChars s ∧ parseNatChars s ≤ 12 := by
  fin_cases hs <;> decide

/-- C7: the numeric-string month conversion succeeds exactly when, after
trimming, every month value is one of the literal strings `"1"`..`"12"`, in
which case the produced integers all lie in `1..12`; for any other table
(including zero-padded `"01"` and out-of-range `"13"`) it produces a
`SchemaError` and no normalized table. -/
theorem month_conversion (ms : List (List Char)) :
    normalizeMonths ms =
      (if (ms.map trimChars).all (fun s => decide (s ∈ monthStrings))
       then Except.ok ((ms.map trimChars).map parseNatChars)
       else Except.error SchemaError.invalidMonth) ∧
    (!(ms.map trimChars).all (fun s => decide (s ∈ monthStrings))
      || ((ms.map trimChars).map parseNatChars).all
           (fun v => decide (1 ≤ v) && decide (v ≤ 12))) = true ∧
    normalizeMonths [['0', '1']] = .error .invalidMonth ∧
    normalizeMonths [['1', '3']] = .error .invalidMonth := by
  refine ⟨rfl, ?_, rfl, rfl⟩
  cases hall : (ms.map trimChars).all (fun s => decide (s ∈ monthStrings)) with
  | false => simp
  | true =>
    simp only [Bool.not_true, Bool.false_or]
    rw [List.all_eq_true]
    intro v hv
    obtain ⟨s, hs, rfl⟩ := List.mem_map.mp hv
    have hsmem : s ∈ monthStrings :=
      of_decide_eq_true (List.all_eq_true.mp hall s hs)
    have hr := parseNatChars_month_range s hsmem
    simp [hr.1, hr.2]

/-! ## Quality Auditor outlier detection (`datacleaning/check.py` lines 20-24) -/

/-- Column values in ascending order (the order statistics that
`Series.quantile` interpolates between). -/
def sortedVals (xs : List ℚ) : List ℚ :=
  xs.insertionSort (· ≤ ·)

/-- Embedding of `Series.quantile(q)` with the default linear interpolation:
at fractional position `q * (n - 1)` between the sorted values; `none` on an
empty column (pandas returns `NaN`). -/
def quantile (xs : List ℚ) (q : ℚ) : Option ℚ :=
  if xs.isEmpty then none
  else
    let s := sortedVals xs
    let pos := q * ((s.length : ℚ) - 1)
    let j := (⌊pos⌋).toNat
    let lo := s.getD j 0
    some (lo + (pos - ⌊pos⌋) * (s.getD (j + 1) lo - lo))

/-- Embedding of the Tukey-rule filter of `check.py` lines 20-24: values
below `Q1 - 1.5*IQR` or above `Q3 + 1.5*IQR` with the quartiles taken over
the full column. -/
def iqrOutliers (xs : List ℚ) : List ℚ :=
  match quantile xs (1/4), quantile xs (3/4) with
  | some q1, some q3 =>
      xs.filter fun v =>
        decide (v < q1 - 3/2 * (q3 - q1)) || decide (q3 + 3/2 * (q3 - q1) < v)
  | _, _ => []

theorem sorted_example :
    sortedVals [10, 12, 11, 13, 200] = [10, 11, 12, 13, 200] := by
  decide

theorem q1_example : quantile [10, 12, 11, 13, 200] (1/4) = some 11 := by
  norm_num [quantile, sorted_example, List.getD]

theorem q3_example : quantile [10, 12, 11, 13, 200] (3/4) = some 13 := by
  norm_num [quantile, sorted_example, List.getD]
  decide

/-- C9: on the series `[10,12,11,13,200]` the Tukey-rule detector computes
`Q1 = 11` and `Q3 = 13` (hence `IQR = 2` and upper bound `13 + 3 = 16`) and
flags exactly the value `200`, none of the other four values. -/
theorem iqr_outlier_example :
    quantile [10, 12, 11, 13, 200] (1/4) = some 11 ∧
    quantile [10, 12, 11, 13, 200] (3/4) = some 13 ∧
    iqrOutliers [10, 12, 11, 13, 200] = [200] := by
  refine ⟨q1_example, q3_example, ?_⟩
  rw [iqrOutliers, q1_example, q3_example]
  norm_num

/-! ## Visualization Builder, seasonal chart (`model.py` lines 478-521) -/

/-- Chart description produced by the item-view seasonal branch. -/
inductive ItemChart where
  | seasonal (monthlyAvg : List (Nat × ℚ)) : ItemChart
  | insufficientPlaceholder : ItemChart
deriving DecidableEq

/-- Mean of a list of values (`Series.mean` on a fully present column). -/
def meanOf (vs : List ℚ) : ℚ :=
  vs.sum / vs.length

/-- Distinct months present in the filtered rows, ascending — the group keys
of `filtered_df.groupby('month')`, which pandas sorts. -/
def monthsOf (rows : List PriceRecord) : List Nat :=
  (dropDuplicates (rows.map PriceRecord.month)).insertionSort (· ≤ ·)

/-- Embedding of
`filtered_df.groupby('month')['combined_index'].mean().reset_index()`
(`model.py` line 482): the month-by-month average of `combined_index`
across years. -/
def monthlyAverages (rows : List PriceRecord) : List (Nat × ℚ) :=
  (monthsOf rows).map fun m =>
    (m, meanOf ((rows.filter fun r => r.month == m).map PriceRecord.combined_index))

/-- Embedding of the seasonal branch of `update_visualization`
(`model.py` lines 478-521): the real chart is built only under
`len(filtered_df) > 12`; otherwise the explicit
"Insufficient data for seasonal analysis" placeholder is returned. -/
def buildSeasonalChart (rows : List PriceRecord) : ItemChart :=
  if 12 < rows.length then .seasonal (monthlyAverages rows) else .insufficientPlaceholder

/-- A concrete filtered subset with exactly 12 rows, one per month. -/
def twelveRows : List PriceRecord :=
  (List.range 12).map fun i => ⟨"1.1.1.1.1.x", 2020, i + 1, 100⟩

/-- C4 (counterexample): the claim "fewer than 12 rows gives the placeholder,
otherwise the seasonal chart" fails at a subset of exactly 12 rows: the code
guards the real chart with `len(filtered_df) > 12`, so 12 rows — which is not
fewer than 12 — still produce the placeholder. -/
theorem seasonal_at_twelve_cx :
    ¬ (twelveRows.length < 12) ∧
      buildSeasonalChart twelveRows = ItemChart.insufficientPlaceholder := by
  decide

/-- C4 (amended): for every item-view seasonal request, if the filtered
subset has twelve or fewer rows the builder returns the explicit
"insufficient data" placeholder chart instead of failing; with more than
twelve rows it returns the seasonal chart grouped by month across years. -/
theorem seasonal_boundary (rows : List PriceRecord) :
    buildSeasonalChart rows =
      if rows.length ≤ 12 then ItemChart.insufficientPlaceholder
      else ItemChart.seasonal (monthlyAverages rows) := by
  by_cases h : 12 < rows.length
  · rw [buildSeasonalChart, if_pos h, if_neg (by omega)]
  · rw [buildSeasonalChart, if_neg h, if_pos (by omega)]

/-! ## Forecast Engine (`model.py` lines 782-1050)

The forecast branch of `update_visualization` first returns a "no data"
refusal when the filtered series is empty (`model.py` line 796; the spec's
error taxonomy names this condition `InsufficientDataError`), and otherwise
dispatches on the method selector.  The regression solver is treated as a
black-box least-squares fit, embedded by the closed-form one-variable
ordinary-least-squares solution. -/

inductive ForecastMethod where
  | linear : ForecastMethod
  | ma : ForecastMethod
  | exp : ForecastMethod
deriving DecidableEq

inductive ForecastError where
  | insufficientData : ForecastError
deriving DecidableEq

/-- The (history fit, future projection, slope, R²) bundle the forecast view
renders; the slope and R² insights are produced only by the linear method. -/
structure ForecastResult where
  fitted : List (Option ℚ)
  forecast : List (Option ℚ)
  slope : Option ℚ
  rsq : Option ℚ
deriving DecidableEq

/-- Sum of the period indices `0..n-1` (the regressor column `X`). -/
def Sx (n : Nat) : ℚ :=
  ∑ i in Finset.range n, (i : ℚ)

/-- Sum of squared period indices. -/
def Sxx (n : Nat) : ℚ :=
  ∑ i in Finset.range n, (i : ℚ) ^ 2

/-- Sum of the series values `y`. -/
def Sy (s : List ℚ) : ℚ :=
  ∑ i in Finset.range s.length, s.getD i 0

/-- Sum of index-value products `Σ i·yᵢ`. -/
def Sxy (s : List ℚ) : ℚ :=
  ∑ i in Finset.range s.length, (i : ℚ) * s.getD i 0

/-- Denominator `n·Σx² - (Σx)²` of the one-variable least-squares slope. -/
def olsDenom (n : Nat) : ℚ :=
  n * Sxx n - Sx n ^ 2

/-- Least-squares slope of the fit `model.fit(X, y)` against the period index
(`model.py` lines 806-807); on a degenerate design (fewer than two points)
the minimum-norm solution has slope 0. -/
def olsSlope (s : List ℚ) : ℚ :=
  if olsDenom s.length = 0 then 0
  else (s.length * Sxy s - Sx s.length * Sy s) / olsDenom s.length

/-- Least-squares intercept. -/
def olsIntercept (s : List ℚ) : ℚ :=
  (Sy s - olsSlope s * Sx s.length) / s.length

/-- `model.predict` at period index `t`. -/
def olsPredict (s : List ℚ) (t : ℚ) : ℚ :=
  olsIntercept s + olsSlope s * t

/-- Residual sum of squares of the fit. -/
def ssRes (s : List ℚ) : ℚ :=
  ∑ i in Finset.range s.length, (s.getD i 0 - olsPredict s i) ^ 2

/-- Total sum of squares about the mean. -/
def ssTot (s : List ℚ) : ℚ :=
  ∑ i in Finset.range s.length, (s.getD i 0 - Sy s / s.length) ^ 2

/-- Coefficient of determination as `model.score(X, y)` reports it
(`model.py` line 880): `1 - ssRes/ssTot`, with the solver's convention that
a constant series perfectly predicted scores 1 and otherwise a zero
denominator scores 0. -/
def rsqOf (s : List ℚ) : ℚ :=
  if ssTot s = 0 then (if ssRes s = 0 then 1 else 0) else 1 - ssRes s / ssTot s

/-- Last value of `s.rolling(window=w).mean()` (`model.py` line 908):
missing unless the window is at least 1 and fits inside the series
(pandas keeps `min_periods = window`), else the mean of the trailing `w`
values. -/
def lastRollingMean (w : Nat) (s : List ℚ) : Option ℚ :=
  if 1 ≤ w ∧ w ≤ s.length then some ((s.drop (s.length - w)).sum / w) else none

/-- Full trailing rolling-mean column of `s.rolling(window=w).mean()`. -/
def rollingMeans (w : Nat) (s : List ℚ) : List (Option ℚ) :=
  (List.range s.length).map fun i =>
    if 1 ≤ w ∧ w ≤ i + 1 then some (((s.take (i + 1)).drop (i + 1 - w)).sum / w)
    else none

/-- Numerator/denominator pair of the adjusted exponentially weighted mean,
folded left over the series. -/
def ewmAux (a : ℚ) (acc : ℚ × ℚ) (s : List ℚ) : ℚ × ℚ :=
  s.foldl (fun p x => (x + (1 - a) * p.1, 1 + (1 - a) * p.2)) acc

/-- Value of `s.ewm(alpha=a).mean()` at position `i` (pandas default
`adjust=True`). -/
def ewmMeanAt (a : ℚ) (s : List ℚ) (i : Nat) : ℚ :=
  (ewmAux a (0, 0) (s.take (i + 1))).1 / (ewmAux a (0, 0) (s.take (i + 1))).2

/-- Full exponentially weighted mean column. -/
def ewmMeans (a : ℚ) (s : List ℚ) : List (Option ℚ) :=
  (List.range s.length).map fun i => some (ewmMeanAt a s i)

/-- Last exponentially smoothed value, missing on an empty series. -/
def ewmLast (a : ℚ) (s : List ℚ) : Option ℚ :=
  if s.isEmpty then none else some (ewmMeanAt a s (s.length - 1))

/-- The Forecast Engine: the forecast branch of `update_visualization`
(`model.py` lines 782-1050).  An empty historical series is refused before
any method runs (line 796); otherwise the selected method produces fitted
values, `h` projected values, and for the linear method the slope and R²
insights.  The moving-average window is `forecast_period // 2` (line 908)
and both flat methods project `np.tile(last, h)`. -/
def forecastEngine (s : List ℚ) (h : Nat) (m : ForecastMethod) :
    Except ForecastError ForecastResult :=
  if s.isEmpty then .error .insufficientData
  else
    match m with
    | .linear =>
        .ok ⟨(List.range s.length).map (fun (i : ℕ) => some (olsPredict s (i : ℚ))),
             (List.range h).map (fun (k : ℕ) => some (olsPredict s ((s.length : ℚ) + (k : ℚ)))),
             some (olsSlope s), some (rsqOf s)⟩
    | .ma =>
        .ok ⟨rollingMeans (h / 2) s,
             List.replicate h (lastRollingMean (h / 2) s), none, none⟩
    | .exp =>
        .ok ⟨ewmMeans (1/5) s,
             List.replicate h (ewmLast (1/5) s), none, none⟩

/-- C1: for every horizon and every method selector (linear, moving-average
or exponential smoothing), a forecast request on an empty historical series
is refused with the insufficient-data error before any method runs, and no
forecast result is returned. -/
theorem empty_series_refused (h : Nat) (m : ForecastMethod) :
    forecastEngine [] h m = .error .insufficientData := rfl

/-- C10: when the moving-average method is selected and the non-empty series
is shorter than the window `h / 2`, the last rolling value is missing, so the
engine returns — without any error — a result whose `h` projected values are
all missing (`NaN`). -/
theorem ma_short_series_all_missing (s : List ℚ) (h : Nat)
    (hs : s ≠ []) (hlt : s.length < h / 2) :
    forecastEngine s h .ma =
      .ok ⟨rollingMeans (h / 2) s, List.replicate h none, none, none⟩ := by
  have hlast : lastRollingMean (h / 2) s = none := by
    rw [lastRollingMean, if_neg]
    rintro ⟨-, hle⟩
    omega
  cases s with
  | nil => exact absurd rfl hs
  | cons x t =>
    show Except.ok _ = _
    rw [hlast]

/-- C10 (witness): the series `[1]` with horizon 4 has window `4 / 2 = 2`
longer than the series, and the engine returns four missing projections. -/
theorem ma_short_series_all_missing_witness :
    forecastEngine [1] 4 .ma =
      .ok ⟨rollingMeans 2 [1], List.replicate 4 none, none, none⟩ :=
  ma_short_series_all_missing [1] 4 (by decide) (by decide)

theorem lastRollingMean_example :
    lastRollingMean 3 [10, 20, 30, 40, 50, 60] = some 50 := by
  rw [lastRollingMean, if_pos (by decide)]
  norm_num

/-- C5: for every non-empty series and horizon `h`, the moving-average method
uses window `h / 2` (integer division, no minimum enforced) and projects `h`
copies of the last trailing rolling-mean value; in particular with window 3
on `[10,20,30,40,50,60]` (horizon 6) every projected value equals
`mean(40,50,60) = 50`. -/
theorem ma_flat_forecast (s : List ℚ) (h : Nat) (hs : s ≠ []) :
    forecastEngine s h .ma =
      .ok ⟨rollingMeans (h / 2) s,
           List.replicate h (lastRollingMean (h / 2) s), none, none⟩ ∧
    lastRollingMean 3 [10, 20, 30, 40, 50, 60] = some 50 ∧
    forecastEngine [10, 20, 30, 40, 50, 60] 6 .ma =
      .ok ⟨rollingMeans 3 [10, 20, 30, 40, 50, 60],
           List.replicate 6 (some 50), none, none⟩ := by
  refine ⟨?_, lastRollingMean_example, ?_⟩
  · cases s with
    | nil => exact absurd rfl hs
    | cons x t => rfl
  · show Except.ok _ = _
    rw [show (6 : Nat) / 2 = 3 from rfl, lastRollingMean_example]

/-- C5 (witness): the moving-average theorem at the concrete series
`[10,20,30,40,50,60]` with horizon 6. -/
theorem ma_flat_forecast_witness :
    forecastEngine [10, 20, 30, 40, 50, 60] 6 .ma =
      .ok ⟨rollingMeans 3 [10, 20, 30, 40, 50, 60],
           List.replicate 6 (some 50), none, none⟩ :=
  (ma_flat_forecast [10, 20, 30, 40, 50, 60] 6 (by decide)).2.2

/-- A historical series lying exactly on a line: value `a + b·i` at period
index `i = 0..n-1`. -/
def linSeries (a b : ℚ) (n : Nat) : List ℚ :=
  (List.range n).map fun (i : ℕ) => a + b * (i : ℚ)

theorem linSeries_length (a b : ℚ) (n : Nat) : (linSeries a b n).length = n := by
  simp [linSeries]

theorem linSeries_getD (a b : ℚ) (n i : Nat) (hi : i < n) :
    (linSeries a b n).getD i 0 = a + b * i := by
  rw [linSeries, List.getD_eq_getElem?_getD, List.getElem?_map, List.getElem?_range hi]
  rfl

theorem Sx_closed (n : Nat) : Sx n = n * ((n : ℚ) - 1) / 2 := by
  induction n with
  | zero => simp [Sx]
  | succ k ih =>
    simp only [Sx, Finset.sum_range_succ]
    simp only [Sx] at ih
    rw [ih]
    push_cast
    ring

theorem Sxx_closed (n : Nat) :
    Sxx n = n * ((n : ℚ) - 1) * (2 * n - 1) / 6 := by
  induction n with
  | zero => simp [Sxx]
  | succ k ih =>
    simp only [Sxx, Finset.sum_range_succ]
    simp only [Sxx] at ih
    rw [ih]
    push_cast
    ring

theorem olsDenom_eq (n : Nat) :
    olsDenom n = (n : ℚ) ^ 2 * ((n : ℚ) - 1) * ((n : ℚ) + 1) / 12 := by
  simp only [olsDenom, Sx_closed, Sxx_closed]
  ring

theorem olsDenom_ne (n : Nat) (hn : 2 ≤ n) : olsDenom n ≠ 0 := by
  have h2 : (2 : ℚ) ≤ (n : ℚ) := by exact_mod_cast hn
  rw [olsDenom_eq]
  have h0 : (0 : ℚ) < (n : ℚ) ^ 2 * ((n : ℚ) - 1) * ((n : ℚ) + 1) / 12 := by
    apply div_pos
    · exact mul_pos (mul_pos (pow_pos (by linarith) 2) (by linarith)) (by linarith)
    · norm_num
  exact ne_of_gt h0

theorem Sy_lin (a b : ℚ) (n : Nat) : Sy (linSeries a b n) = n * a + b * Sx n := by
  simp only [Sy, linSeries_length]
  rw [Finset.sum_congr rfl fun i hi => linSeries_getD a b n i (Finset.mem_range.mp hi)]
  rw [Finset.sum_add_distrib, Finset.sum_const, Finset.card_range, ← Finset.mul_sum]
  simp only [Sx, nsmul_eq_mul]

theorem Sxy_lin (a b : ℚ) (n : Nat) :
    Sxy (linSeries a b n) = a * Sx n + b * Sxx n := by
  simp only [Sxy, linSeries_length]
  rw [Finset.sum_congr rfl fun i hi => by
    rw [linSeries_getD a b n i (Finset.mem_range.mp hi)]]
  simp only [Sx, Sxx, Finset.mul_sum]
  rw [← Finset.sum_add_distrib]
  refine Finset.sum_congr rfl fun i _ => by ring

theorem olsSlope_lin (a b : ℚ) (n : Nat) (hn : 2 ≤ n) :
    olsSlope (linSeries a b n) = b := by
  have hD := olsDenom_ne n hn
  simp only [olsSlope, linSeries_length, if_neg hD, Sxy_lin, Sy_lin]
  rw [div_eq_iff hD]
  simp only [olsDenom]
  ring

theorem olsIntercept_lin (a b : ℚ) (n : Nat) (hn : 2 ≤ n) :
    olsIntercept (linSeries a b n) = a := by
  have hn0 : (n : ℚ) ≠ 0 := Nat.cast_ne_zero.mpr (by omega)
  simp only [olsIntercept, linSeries_length, olsSlope_lin a b n hn, Sy_lin]
  rw [div_eq_iff hn0]
  ring

theorem olsPredict_lin (a b : ℚ) (n : Nat) (hn : 2 ≤ n) (t : ℚ) :
    olsPredict (linSeries a b n) t = a + b * t := by
  rw [olsPredict, olsIntercept_lin a b n hn, olsSlope_lin a b n hn]

theorem ssRes_lin (a b : ℚ) (n : Nat) (hn : 2 ≤ n) : ssRes (linSeries a b n) = 0 := by
  simp only [ssRes, linSeries_length]
  refine Finset.sum_eq_zero fun i hi => ?_
  rw [linSeries_getD a b n i (Finset.mem_range.mp hi), olsPredict_lin a b n hn]
  ring

theorem rsq_lin (a b : ℚ) (n : Nat) (hn : 2 ≤ n) : rsqOf (linSeries a b n) = 1 := by
  have hres := ssRes_lin a b n hn
  by_cases hST : ssTot (linSeries a b n) = 0
  · simp [rsqOf, hST, hres]
  · simp [rsqOf, hST, hres]

theorem forecastEngine_linear (s : List ℚ) (hs : s ≠ []) (h : Nat) :
    forecastEngine s h .linear =
      .ok ⟨(List.range s.length).map (fun (i : ℕ) => some (olsPredict s (i : ℚ))),
           (List.range h).map (fun (k : ℕ) => some (olsPredict s ((s.length : ℚ) + (k : ℚ)))),
           some (olsSlope s), some (rsqOf s)⟩ := by
  cases s with
  | nil => exact absurd rfl hs
  | cons x t => rfl

theorem linear_forecast_general (n : Nat) (a b : ℚ) (h : Nat) (hn : 2 ≤ n) :
    forecastEngine (linSeries a b n) h .linear =
      .ok ⟨(List.range n).map (fun (i : ℕ) => some (a + b * (i : ℚ))),
           (List.range h).map (fun (k : ℕ) => some (a + b * ((n : ℚ) + (k : ℚ)))),
           some b, some 1⟩ := by
  have hne : linSeries a b n ≠ [] := by
    intro hnil
    have := linSeries_length a b n
    rw [hnil] at this
    simp at this
    omega
  rw [forecastEngine_linear _ hne h, linSeries_length,
    olsSlope_lin a b n hn, rsq_lin a b n hn]
  have hfit : (List.range n).map (fun (i : ℕ) => some (olsPredict (linSeries a b n) (i : ℚ))) =
      (List.range n).map fun (i : ℕ) => some (a + b * (i : ℚ)) :=
    List.map_congr_left fun i _ => by rw [olsPredict_lin a b n hn]
  have hfc : (List.range h).map
        (fun (k : ℕ) => some (olsPredict (linSeries a b n) ((n : ℚ) + (k : ℚ)))) =
      (List.range h).map fun (k : ℕ) => some (a + b * ((n : ℚ) + (k : ℚ))) :=
    List.map_congr_left fun k _ => by rw [olsPredict_lin a b n hn]
  rw [hfit, hfc]

/-- C6: a historical series lying exactly on the line `a + b·i` over periods
`0..n-1` (with `n ≥ 2`) is reproduced exactly by the linear method: every
fitted value is `a + b·i`, the projection at future period `n + k` is
`a + b·(n + k)`, the reported slope is `b` and R² is exactly 1; in
particular `[100,102,104,106]` projects `108` and `110` at periods 4 and 5
with R² = 1. -/
theorem linear_forecast_exact (n : Nat) (a b : ℚ) (h : Nat) (hn : 2 ≤ n) :
    forecastEngine (linSeries a b n) h .linear =
      .ok ⟨(List.range n).map (fun (i : ℕ) => some (a + b * (i : ℚ))),
           (List.range h).map (fun (k : ℕ) => some (a + b * ((n : ℚ) + (k : ℚ)))),
           some b, some 1⟩ ∧
    forecastEngine [100, 102, 104, 106] 2 .linear =
      .ok ⟨[some 100, some 102, some 104, some 106],
           [some 108, some 110], some 2, some 1⟩ := by
  refine ⟨linear_forecast_general n a b h hn, ?_⟩
  have hlist : linSeries 100 2 4 = [100, 102, 104, 106] := by
    norm_num [linSeries, List.range_succ]
  have h1 := linear_forecast_general 4 100 2 2 (by norm_num)
  rw [hlist] at h1
  rw [h1]
  norm_num [List.range_succ]

/-- C6 (witness): the linear-forecast theorem at the concrete series
`[100,102,104,106]` (`n = 4`, `a = 100`, `b = 2`) with horizon 2. -/
theorem linear_forecast_exact_witness :
    forecastEngine [100, 102, 104, 106] 2 .linear =
      .ok ⟨[some 100, some 102, some 104, some 106],
           [some 108, some 110], some 2, some 1⟩ :=
  (linear_forecast_exact 4 100 2 2 (by norm_num)).2

end Atlas
